import Mathlib

/-!
Verification of the lead-enrichment CRM core against its specification.

The definitions below are shallow embeddings of the Python sources:
  - `Cascade`   : src/enrichment/cascade.py (CascadeManager)
  - `RateLim`   : src/utils/rate_limiter.py (SlidingWindowCounter)
  - `Cost`      : src/utils/cost_tracker.py (CostTracker)
  - `Seq`       : src/pipeline/stages/sequences.py and the webhook handler
                  in src/app.py
  - `Orch`      : src/pipeline/orchestrator.py and the batch loop of
                  src/pipeline/stages/company_enrichment.py
Machine floats of the source are modelled as rationals, database rows as
lists of records, and timestamps as rationals (seconds).
-/

namespace Cascade

/-- Field values appearing in provider payloads.  Python truthiness of the
source (`bool(value)`) is mirrored by `Value.truthy`. -/
inductive Value where
  | str (s : String)
  | num (n : Nat)
  deriving DecidableEq, Repr

/-- Python truthiness of a field value: empty strings and zero are falsy. -/
def Value.truthy : Value → Bool
  | .str s => !(s == "")
  | .num n => !(n == 0)

/-- Embedding of `EnrichmentResult` as consumed by `CascadeManager`:
`success` flag and the optional data object.  `data = some d` stands for a
pydantic model whose `model_dump(exclude_none=True)` is the association
list `d` (keys distinct, values non-null). -/
structure EnrichResult where
  success : Bool
  data : Option (List (String × Value))
  deriving DecidableEq, Repr

/-- Dictionary used for `merged_data`: an association list in insertion
order, mirroring a Python dict. -/
abbrev Dict := List (String × Value)

/-- Embedding of the merge loop of `CascadeManager.enrich_company` /
`enrich_contact`:
`for key, value in data_dict.items(): if key not in merged_data or
merged_data[key] is None: merged_data[key] = value`.  Values inserted are
never `None` (the dump excludes them), so the second disjunct never fires
and the merge is fill-gaps-only. -/
def mergeDict (merged : Dict) (data : Dict) : Dict :=
  data.foldl
    (fun acc kv =>
      match acc.lookup kv.1 with
      | some _ => acc
      | none => acc ++ [kv])
    merged

/-- One entry of the provider order: the provider name paired with `none`
when `self._providers.get(provider_name)` misses (unconfigured, skipped)
or with the `EnrichmentResult` its adapter returns. -/
abbrev ProviderRun := List (String × Option EnrichResult)

/-- Embedding of the provider loop of `CascadeManager.enrich_company`
(src/enrichment/cascade.py lines 88-117): skip unconfigured providers,
merge successful results fill-gaps-only, and break after the first
success when `stop_on_success` is configured. -/
def companyLoop (stopOnSuccess : Bool) :
    ProviderRun → Dict → List String → Dict × List String
  | [], merged, used => (merged, used)
  | (_, none) :: rest, merged, used => companyLoop stopOnSuccess rest merged used
  | (name, some r) :: rest, merged, used =>
    match r.success, r.data with
    | true, some d =>
      let merged' := mergeDict merged d
      let used' := used ++ [name]
      if stopOnSuccess then (merged', used')
      else companyLoop stopOnSuccess rest merged' used'
    | _, _ => companyLoop stopOnSuccess rest merged used

/-- Embedding of `CascadeManager.enrich_company`: run the loop from an
empty accumulator and return `(None, [])` when no provider yielded any
data (`if not merged_data`). -/
def enrich_company (stopOnSuccess : Bool) (provs : ProviderRun) :
    Option Dict × List String :=
  let (m, used) := companyLoop stopOnSuccess provs [] []
  if m.isEmpty then (none, []) else (some m, used)

/-- Pythonic truthy lookup `data.get(key)` used by
`_has_required_contact_fields`. -/
def getTruthy (d : Dict) (k : String) : Bool :=
  match d.lookup k with
  | some v => v.truthy
  | none => false

/-- Embedding of `CascadeManager._has_required_contact_fields`
(src/enrichment/cascade.py lines 199-204). -/
def has_required_contact_fields (d : Dict) : Bool :=
  getTruthy d "first_name" && getTruthy d "last_name" &&
    getTruthy d "email" && getTruthy d "title"

/-- Embedding of the provider loop of `CascadeManager.enrich_contact`
(src/enrichment/cascade.py lines 155-192): same merge as the company
path, but the cascade breaks only when `stop_on_success` is configured
and all critical contact fields are present. -/
def contactLoop (stopOnSuccess : Bool) :
    ProviderRun → Dict → List String → Dict × List String
  | [], merged, used => (merged, used)
  | (_, none) :: rest, merged, used => contactLoop stopOnSuccess rest merged used
  | (name, some r) :: rest, merged, used =>
    match r.success, r.data with
    | true, some d =>
      let merged' := mergeDict merged d
      let used' := used ++ [name]
      if stopOnSuccess && has_required_contact_fields merged' then (merged', used')
      else contactLoop stopOnSuccess rest merged' used'
    | _, _ => contactLoop stopOnSuccess rest merged used

/-- Embedding of `CascadeManager.enrich_contact` (result normalisation as
for the company path). -/
def enrich_contact (stopOnSuccess : Bool) (provs : ProviderRun) :
    Option Dict × List String :=
  let (m, used) := contactLoop stopOnSuccess provs [] []
  if m.isEmpty then (none, []) else (some m, used)

/-- Data dictionaries of the providers the company loop actually merges,
in order: unconfigured and failed providers contribute nothing, and with
`stop_on_success` the first success is the last contribution. -/
def successDatas (stopOnSuccess : Bool) : ProviderRun → List Dict
  | [] => []
  | (_, none) :: rest => successDatas stopOnSuccess rest
  | (_, some r) :: rest =>
    match r.success, r.data with
    | true, some d =>
      if stopOnSuccess then [d] else d :: successDatas stopOnSuccess rest
    | _, _ => successDatas stopOnSuccess rest

/-- First value for a key across a list of data dictionaries. -/
def firstHit (k : String) : List Dict → Option Value
  | [] => none
  | d :: ds =>
    match d.lookup k with
    | some v => some v
    | none => firstHit k ds

/-- Lookup in the optional merged result of a cascade. -/
def mergedLookup (r : Option Dict × List String) (k : String) : Option Value :=
  r.1.bind (fun d => d.lookup k)

end Cascade

namespace Cascade

/-- First-some choice on optional values (Python `or` on dict hits). -/
def orFirst (a b : Option Value) : Option Value :=
  match a with
  | some v => some v
  | none => b

theorem orFirst_none_right (a : Option Value) : orFirst a none = a := by
  cases a <;> rfl

theorem lookup_append_one (m : Dict) (a : String) (b : Value) (k : String) :
    (m ++ [(a, b)]).lookup k = orFirst (m.lookup k) (if k == a then some b else none) := by
  induction m with
  | nil =>
    by_cases h : k = a
    · simp [List.lookup, h, orFirst]
    · have hb : (k == a) = false := by simp [h]
      simp [List.lookup, orFirst, hb]
  | cons hd tl ih =>
    obtain ⟨hk, hv⟩ := hd
    by_cases h : k = hk
    · simp [List.lookup, h, orFirst]
    · have hb : (k == hk) = false := by simp [h]
      simpa [List.lookup, hb, orFirst] using ih

theorem lookup_mergeDict (d : Dict) : ∀ (m : Dict) (k : String),
    (mergeDict m d).lookup k = orFirst (m.lookup k) (d.lookup k) := by
  induction d with
  | nil =>
    intro m k
    simp [mergeDict, List.lookup, orFirst_none_right]
  | cons kv d ih =>
    intro m k
    obtain ⟨a, b⟩ := kv
    have hstep : mergeDict m ((a, b) :: d) =
        mergeDict (match m.lookup a with
          | some _ => m
          | none => m ++ [(a, b)]) d := rfl
    rw [hstep]
    cases hma : m.lookup a with
    | some v =>
      simp only [hma]
      rw [ih]
      by_cases h : k = a
      · subst h
        simp [List.lookup, hma, orFirst]
      · have hb : (k == a) = false := by simp [h]
        simp [List.lookup, hb]
    | none =>
      simp only [hma]
      rw [ih, lookup_append_one]
      by_cases h : k = a
      · subst h
        simp [List.lookup, hma, orFirst]
      · have hb : (k == a) = false := by simp [h]
        cases hmk : m.lookup k <;> simp [List.lookup, hb, orFirst, hmk]

theorem companyLoop_cons_success (stop : Bool) (name : String) (r : EnrichResult)
    (d : Dict) (rest : ProviderRun) (m : Dict) (u : List String)
    (hs : r.success = true) (hd : r.data = some d) :
    companyLoop stop ((name, some r) :: rest) m u =
      if stop then (mergeDict m d, u ++ [name])
      else companyLoop stop rest (mergeDict m d) (u ++ [name]) := by
  simp only [companyLoop, hs, hd]

theorem companyLoop_cons_skip (stop : Bool) (name : String) (r : EnrichResult)
    (rest : ProviderRun) (m : Dict) (u : List String)
    (h : r.success = false ∨ r.data = none) :
    companyLoop stop ((name, some r) :: rest) m u = companyLoop stop rest m u := by
  rcases h with h | h
  · simp only [companyLoop, h]
  · cases hs : r.success <;> simp only [companyLoop, hs, h]

theorem successDatas_cons_success (stop : Bool) (name : String) (r : EnrichResult)
    (d : Dict) (rest : ProviderRun)
    (hs : r.success = true) (hd : r.data = some d) :
    successDatas stop ((name, some r) :: rest) =
      if stop then [d] else d :: successDatas stop rest := by
  simp only [successDatas, hs, hd]

theorem successDatas_cons_skip (stop : Bool) (name : String) (r : EnrichResult)
    (rest : ProviderRun) (h : r.success = false ∨ r.data = none) :
    successDatas stop ((name, some r) :: rest) = successDatas stop rest := by
  rcases h with h | h
  · simp only [successDatas, h]
  · cases hs : r.success <;> simp only [successDatas, hs, h]

theorem companyLoop_lookup (stop : Bool) : ∀ (provs : ProviderRun) (m : Dict)
    (u : List String) (k : String),
    ((companyLoop stop provs m u).1).lookup k =
      orFirst (m.lookup k) (firstHit k (successDatas stop provs)) := by
  intro provs
  induction provs with
  | nil =>
    intro m u k
    simp [companyLoop, successDatas, firstHit, orFirst_none_right]
  | cons p rest ih =>
    intro m u k
    obtain ⟨name, r?⟩ := p
    cases r? with
    | none => simpa [companyLoop, successDatas] using ih m u k
    | some r =>
      by_cases hok : r.success = true ∧ ∃ d, r.data = some d
      · obtain ⟨hs, d, hd⟩ := hok
        rw [companyLoop_cons_success stop name r d rest m u hs hd,
          successDatas_cons_success stop name r d rest hs hd]
        cases stop with
        | true =>
          simp only [if_pos]
          rw [lookup_mergeDict]
          cases hdk : d.lookup k <;> simp [orFirst, hdk, firstHit]
        | false =>
          simp only [Bool.false_eq_true, if_false]
          rw [ih, lookup_mergeDict]
          cases hmk : m.lookup k <;> cases hdk : d.lookup k <;>
            simp [orFirst, hmk, hdk, firstHit]
      · have hskip : r.success = false ∨ r.data = none := by
          rcases hs : r.success with _ | _
          · exact Or.inl rfl
          · rcases hd : r.data with _ | d
            · exact Or.inr rfl
            · exact absurd ⟨hs, d, hd⟩ hok
        rw [companyLoop_cons_skip stop name r rest m u hskip,
          successDatas_cons_skip stop name r rest hskip]
        exact ih m u k

theorem enrich_company_lookup (stop : Bool) (provs : ProviderRun) (k : String) :
    mergedLookup (enrich_company stop provs) k =
      firstHit k (successDatas stop provs) := by
  have hloop := companyLoop_lookup stop provs [] [] k
  simp only [List.lookup, orFirst] at hloop
  unfold mergedLookup enrich_company
  cases hm : (companyLoop stop provs [] []).1.isEmpty with
  | true =>
    have hnil : (companyLoop stop provs [] []).1 = [] :=
      List.isEmpty_iff.mp hm
    rw [hnil] at hloop
    simp only [List.lookup] at hloop
    simp [hm, ← hloop]
  | false =>
    simp [hm, ← hloop]

/-- The apollo result of the acme.io scenario: industry=Software,
employees=None (the null field is absent from the exclude-none dump). -/
def acmeApollo : EnrichResult :=
  { success := true, data := some [("industry", Value.str "Software")] }

/-- The clearbit result of the acme.io scenario: employees=120,
industry=FinTech. -/
def acmeClearbit : EnrichResult :=
  { success := true
    data := some [("employees", Value.num 120), ("industry", Value.str "FinTech")] }

/-- The acme.io run with provider order [apollo, clearbit], both
configured. -/
def acmeRun : ProviderRun :=
  [("apollo", some acmeApollo), ("clearbit", some acmeClearbit)]


/-- Contact data carrying all critical fields, used to witness the early
stop of the contact cascade. -/
def fullContactData : Dict :=
  [("first_name", Value.str "Ada"), ("last_name", Value.str "Lovelace"),
   ("email", Value.str "ada@acme.io"), ("title", Value.str "CTO")]

/-- An apollo contact result carrying all critical fields. -/
def fullContactResult : EnrichResult :=
  { success := true, data := some fullContactData }

/-- A configured lower-priority provider that the early stop must leave
unqueried. -/
def hunterEntry : String × Option EnrichResult :=
  ("hunter", some { success := true, data := some [("title", Value.str "VP")] })

/-- C1: the claim as stated fails on the code.  Under the repository
configuration (`CascadeConfig.stop_on_success` defaults to `true` and
`Settings.from_env` does not override it), the company cascade breaks
after apollo's success, so for the acme.io scenario clearbit is never
queried: the merged result is industry=Software with no employees field,
not industry=Software, employees=120 as the claim requires. -/
theorem C1_counterexample :
    enrich_company true acmeRun = (some [("industry", Value.str "Software")], ["apollo"])
    ∧ mergedLookup (enrich_company true acmeRun) "employees" = none
    ∧ mergedLookup (enrich_company true acmeRun) "employees" ≠ some (Value.num 120) := by
  refine ⟨by decide, by decide, by decide⟩

/-- C1 (amended): cascade company enrichment merges fill-gaps-only among
the providers actually queried: for every run and every field, the merged
value is that of the first queried provider whose successful result
contains the field (so a later provider never overwrites an earlier one);
and in the acme.io scenario the claimed result industry=Software,
employees=120 is obtained exactly when `stop_on_success` is disabled so
that clearbit is queried after apollo. -/
theorem C1_theorem :
    (∀ (stop : Bool) (provs : ProviderRun) (k : String),
      mergedLookup (enrich_company stop provs) k = firstHit k (successDatas stop provs))
    ∧ enrich_company false acmeRun =
        (some [("industry", Value.str "Software"), ("employees", Value.num 120)],
          ["apollo", "clearbit"]) :=
  ⟨enrich_company_lookup, by decide⟩

/-- C5: with `stop_on_success` configured (the repository default, which
`Settings.from_env` never overrides), the contact cascade stops as soon
as the accumulated merged data has the required fields (first and last
name, email, title) after a successful merge, returning without touching
the remaining lower-priority providers; and while the threshold is not
met it continues into the remaining providers. -/
theorem C5_theorem :
    (∀ (name : String) (r : EnrichResult) (d : Dict) (rest : ProviderRun)
        (m : Dict) (u : List String),
      r.success = true → r.data = some d →
      has_required_contact_fields (mergeDict m d) = true →
      contactLoop true ((name, some r) :: rest) m u = (mergeDict m d, u ++ [name]))
    ∧ (∀ (name : String) (r : EnrichResult) (d : Dict) (rest : ProviderRun)
        (m : Dict) (u : List String),
      r.success = true → r.data = some d →
      has_required_contact_fields (mergeDict m d) = false →
      contactLoop true ((name, some r) :: rest) m u =
        contactLoop true rest (mergeDict m d) (u ++ [name])) := by
  constructor
  · intro name r d rest m u hs hd hreq
    simp only [contactLoop, hs, hd, hreq, Bool.and_true, if_pos]
  · intro name r d rest m u hs hd hreq
    simp only [contactLoop, hs, hd, hreq, Bool.and_false, Bool.false_eq_true, if_false]

/-- C5 witness: a concrete run where apollo returns name, email and
title, so the loop returns at once and the configured hunter provider
stays unqueried. -/
theorem C5_witness :
    (fullContactResult.success = true ∧ fullContactResult.data = some fullContactData
      ∧ has_required_contact_fields (mergeDict [] fullContactData) = true)
    ∧ contactLoop true [("apollo", some fullContactResult), hunterEntry] [] [] =
        (mergeDict [] fullContactData, ["apollo"]) :=
  ⟨⟨rfl, rfl, by decide⟩,
    C5_theorem.1 "apollo" fullContactResult fullContactData [hunterEntry] [] []
      rfl rfl (by decide)⟩

end Cascade

namespace RateLim

/-- Embedding of `SlidingWindowCounter.acquire` (src/utils/rate_limiter.py
lines 35-47): prune timestamps to those strictly newer than
`now - window_size`, admit and record `now` iff the pruned count is
strictly below `max_requests`.  Monotonic-clock floats are modelled as
rationals. -/
def acquire (windowSize : ℚ) (maxRequests : Nat) (timestamps : List ℚ) (now : ℚ) :
    List ℚ × Bool :=
  let pruned := timestamps.filter (fun ts => decide (now - windowSize < ts))
  if pruned.length < maxRequests then (pruned ++ [now], true) else (pruned, false)

/-- Times of the admitted requests when `acquire` is called at each time of
`times` in order, starting from the state `ts`. -/
def admittedRun (W : ℚ) (maxR : Nat) : List ℚ → List ℚ → List ℚ
  | _, [] => []
  | ts, now :: rest =>
    let step := acquire W maxR ts now
    if step.2 then now :: admittedRun W maxR step.1 rest
    else admittedRun W maxR step.1 rest

/-- Number of times of `l` lying in the trailing window `(T - W, T]`. -/
def countIn (W T : ℚ) (l : List ℚ) : Nat :=
  (l.filter (fun t => decide (T - W < t) && decide (t ≤ T))).length

theorem mem_admittedRun (W : ℚ) (maxR : Nat) :
    ∀ (times ts : List ℚ) (x : ℚ), x ∈ admittedRun W maxR ts times → x ∈ times := by
  intro times
  induction times with
  | nil => intro ts x hx; simp [admittedRun] at hx
  | cons now rest ih =>
    intro ts x hx
    simp only [admittedRun] at hx
    by_cases h : (acquire W maxR ts now).2 = true
    · rw [if_pos h] at hx
      rcases List.mem_cons.mp hx with h1 | h1
      · exact h1 ▸ List.mem_cons_self now rest
      · exact List.mem_cons_of_mem now (ih _ x h1)
    · rw [if_neg h] at hx
      exact List.mem_cons_of_mem now (ih _ x hx)

theorem countIn_state_prune (W T now : ℚ) (ts : List ℚ) (hT : now ≤ T) :
    countIn W T (ts.filter (fun s => decide (now - W < s))) = countIn W T ts := by
  unfold countIn
  rw [List.filter_filter]
  congr 1
  apply List.filter_congr
  intro s _
  by_cases h1 : T - W < s
  · by_cases h2 : s ≤ T
    · have h3 : now - W < s := lt_of_le_of_lt (by linarith) h1
      simp [h1, h2, h3]
    · simp [h2]
  · simp [h1]

theorem countIn_filter_le (W T : ℚ) (p : ℚ → Bool) (ts : List ℚ) :
    countIn W T (ts.filter p) ≤ countIn W T ts := by
  unfold countIn
  exact ((List.filter_sublist ts).filter _).length_le

theorem countIn_nil (W T : ℚ) : countIn W T [] = 0 := rfl

theorem countIn_cons (W T x : ℚ) (l : List ℚ) :
    countIn W T (x :: l) =
      (if T - W < x ∧ x ≤ T then 1 else 0) + countIn W T l := by
  unfold countIn
  rw [List.filter_cons]
  by_cases h1 : T - W < x
  · by_cases h2 : x ≤ T
    · simp [h1, h2, Nat.add_comm]
    · simp [h1, h2]
  · simp [h1]

theorem countIn_append (W T : ℚ) (l₁ l₂ : List ℚ) :
    countIn W T (l₁ ++ l₂) = countIn W T l₁ + countIn W T l₂ := by
  unfold countIn
  rw [List.filter_append, List.length_append]

theorem countIn_le_length (W T : ℚ) (l : List ℚ) : countIn W T l ≤ l.length :=
  List.length_filter_le _ l

theorem countIn_eq_zero_of_late (W T : ℚ) (l : List ℚ)
    (h : ∀ x ∈ l, ¬x ≤ T) : countIn W T l = 0 := by
  unfold countIn
  rw [List.filter_eq_nil_iff.mpr]
  · rfl
  · intro a ha
    simp [h a ha]

theorem acquire_allows (W : ℚ) (maxR : Nat) (ts : List ℚ) (now : ℚ)
    (h : (ts.filter (fun s => decide (now - W < s))).length < maxR) :
    acquire W maxR ts now =
      (ts.filter (fun s => decide (now - W < s)) ++ [now], true) := by
  unfold acquire
  rw [if_pos h]

theorem acquire_deny (W : ℚ) (maxR : Nat) (ts : List ℚ) (now : ℚ)
    (h : ¬(ts.filter (fun s => decide (now - W < s))).length < maxR) :
    acquire W maxR ts now = (ts.filter (fun s => decide (now - W < s)), false) := by
  unfold acquire
  rw [if_neg h]

theorem admitted_bound (W : ℚ) (maxR : Nat) :
    ∀ (times ts : List ℚ),
      times.Sorted (· ≤ ·) →
      (∀ s ∈ ts, ∀ n ∈ times, s ≤ n) →
      (∀ U, countIn W U ts ≤ maxR) →
      ∀ T, countIn W T (admittedRun W maxR ts times) + countIn W T ts ≤ maxR := by
  intro times
  induction times with
  | nil =>
    intro ts _ _ hc T
    simpa [admittedRun, countIn_nil] using hc T
  | cons now rest ih =>
    intro ts hsort hb hc T
    obtain ⟨hnowle, hrest⟩ := List.sorted_cons.mp hsort
    have htssub : ∀ s ∈ ts.filter (fun s => decide (now - W < s)), s ∈ ts :=
      fun s hs => (List.mem_filter.mp hs).1
    by_cases hadm : (ts.filter (fun s => decide (now - W < s))).length < maxR
    · -- admitted: state becomes pruned ++ [now]
      have hacq := acquire_allows W maxR ts now hadm
      have hrun : admittedRun W maxR ts (now :: rest) =
          now :: admittedRun W maxR (ts.filter (fun s => decide (now - W < s)) ++ [now]) rest := by
        simp [admittedRun, hacq]
      have hb' : ∀ s ∈ ts.filter (fun s => decide (now - W < s)) ++ [now],
          ∀ n ∈ rest, s ≤ n := by
        intro s hs n hn
        rcases List.mem_append.mp hs with h1 | h1
        · exact hb s (htssub s h1) n (List.mem_cons_of_mem now hn)
        · have : s = now := by simpa using h1
          exact this ▸ hnowle n hn
      have hc' : ∀ U, countIn W U (ts.filter (fun s => decide (now - W < s)) ++ [now]) ≤ maxR := by
        intro U
        rw [countIn_append]
        have h1 : countIn W U (ts.filter (fun s => decide (now - W < s))) ≤
            (ts.filter (fun s => decide (now - W < s))).length :=
          countIn_le_length W U _
        have h2 : countIn W U [now] ≤ 1 := countIn_le_length W U [now]
        omega
      have hIH := ih (ts.filter (fun s => decide (now - W < s)) ++ [now]) hrest hb' hc' T
      rw [hrun, countIn_cons]
      by_cases hT : now ≤ T
      · have hps : countIn W T (ts.filter (fun s => decide (now - W < s))) = countIn W T ts :=
          countIn_state_prune W T now ts hT
        rw [countIn_append, hps] at hIH
        have hsing : countIn W T [now] = (if T - W < now ∧ now ≤ T then 1 else 0) := by
          rw [show ([now] : List ℚ) = now :: [] from rfl, countIn_cons, countIn_nil]
          exact Nat.add_zero _
        rw [hsing] at hIH
        omega
      · have hnone : (if T - W < now ∧ now ≤ T then 1 else 0) = 0 := by
          simp [hT]
        have hzero : countIn W T
            (admittedRun W maxR (ts.filter (fun s => decide (now - W < s)) ++ [now]) rest) = 0 := by
          apply countIn_eq_zero_of_late
          intro x hx
          have hxrest := mem_admittedRun W maxR rest _ x hx
          have : now ≤ x := hnowle x hxrest
          intro hxle
          exact hT (le_trans this hxle)
        rw [hnone, hzero]
        simpa using hc T
    · -- denied: state becomes pruned, nothing admitted now
      have hacq := acquire_deny W maxR ts now hadm
      have hrun : admittedRun W maxR ts (now :: rest) =
          admittedRun W maxR (ts.filter (fun s => decide (now - W < s))) rest := by
        simp [admittedRun, hacq]
      have hb' : ∀ s ∈ ts.filter (fun s => decide (now - W < s)), ∀ n ∈ rest, s ≤ n :=
        fun s hs n hn => hb s (htssub s hs) n (List.mem_cons_of_mem now hn)
      have hc' : ∀ U, countIn W U (ts.filter (fun s => decide (now - W < s))) ≤ maxR :=
        fun U => le_trans (countIn_filter_le W U _ ts) (hc U)
      have hIH := ih (ts.filter (fun s => decide (now - W < s))) hrest hb' hc' T
      rw [hrun]
      by_cases hT : now ≤ T
      · have hps : countIn W T (ts.filter (fun s => decide (now - W < s))) = countIn W T ts :=
          countIn_state_prune W T now ts hT
        rw [hps] at hIH
        exact hIH
      · have hzero : countIn W T
            (admittedRun W maxR (ts.filter (fun s => decide (now - W < s))) rest) = 0 := by
          apply countIn_eq_zero_of_late
          intro x hx
          have hxrest := mem_admittedRun W maxR rest _ x hx
          have : now ≤ x := hnowle x hxrest
          intro hxle
          exact hT (le_trans this hxle)
        rw [hzero]
        simpa using hc T

/-- C2: the sliding-window counter admits a request iff the number of
recorded timestamps strictly newer than `now - window_size` is strictly
below the configured maximum, appending the new timestamp on admission;
consequently, starting from an empty window, for every nondecreasing
(monotonic-clock) sequence of acquire times and every trailing window
`(T - W, T]` of the configured size, at most the configured maximum
number of requests is admitted inside the window. -/
theorem C2_theorem :
    (∀ (W : ℚ) (maxR : Nat) (ts : List ℚ) (now : ℚ),
      ((acquire W maxR ts now).2 = true ↔
        (ts.filter (fun t => decide (now - W < t))).length < maxR)
      ∧ ((acquire W maxR ts now).2 = true →
        (acquire W maxR ts now).1 = ts.filter (fun t => decide (now - W < t)) ++ [now]))
    ∧ (∀ (W : ℚ) (maxR : Nat) (times : List ℚ),
      times.Sorted (· ≤ ·) →
      ∀ T : ℚ, countIn W T (admittedRun W maxR [] times) ≤ maxR) := by
  constructor
  · intro W maxR ts now
    by_cases h : (ts.filter (fun t => decide (now - W < t))).length < maxR
    · rw [acquire_allows W maxR ts now h]
      exact ⟨⟨fun _ => h, fun _ => rfl⟩, fun _ => rfl⟩
    · rw [acquire_deny W maxR ts now h]
      refine ⟨⟨fun hf => absurd hf (by simp), fun hh => absurd hh h⟩,
        fun hf => absurd hf (by simp)⟩
  · intro W maxR times hsort T
    have hb : ∀ s ∈ ([] : List ℚ), ∀ n ∈ times, s ≤ n := by
      intro s hs
      simp at hs
    have hc : ∀ U : ℚ, countIn W U ([] : List ℚ) ≤ maxR := by
      intro U
      simp [countIn_nil]
    have := admitted_bound W maxR times [] hsort hb hc T
    simpa [countIn_nil] using this

/-- C2 witness: four acquire calls at times 0, 1, 2, 70 against a
60-second window of capacity 2 admit at most 2 requests in the window
ending at time 2. -/
theorem C2_witness :
    ([0, 1, 2, 70] : List ℚ).Sorted (· ≤ ·)
    ∧ countIn 60 2 (admittedRun 60 2 [] [0, 1, 2, 70]) ≤ 2 :=
  ⟨by decide, C2_theorem.2 60 2 [0, 1, 2, 70] (by decide) 2⟩

end RateLim

namespace Cost

/-- Embedding of the `CostSummary` row (src/core/models.py): monthly
aggregate per provider; dollar floats are modelled as rationals. -/
structure CostSummary where
  provider : String
  year : Nat
  month : Nat
  total_requests : Nat
  successful_requests : Nat
  failed_requests : Nat
  total_cost_usd : ℚ
  deriving DecidableEq, Repr

/-- Embedding of the `PROVIDER_COSTS` map of src/config.py with default
0.0 (`PROVIDER_COSTS.get(provider, 0.0)`). -/
def PROVIDER_COSTS (p : String) : ℚ :=
  if p = "apollo" then 3/100
  else if p = "clearbit" then 1/10
  else if p = "hunter" then 1/100
  else if p = "prospeo" then 5/100
  else if p = "dropcontact" then 4/100
  else if p = "zerobounce" then 8/1000
  else if p = "openai" then 2/1000
  else if p = "perplexity" then 5/1000
  else 0

/-- Embedding of `CostTracker._update_cost_summary` (src/utils/cost_tracker.py
lines 69-108): find the summary of (provider, year, month), increment it,
or insert a fresh one. -/
def updateSummaries (provider : String) (year month : Nat) (success : Bool)
    (cost : ℚ) : List CostSummary → List CostSummary
  | [] =>
    [{ provider := provider, year := year, month := month,
       total_requests := 1,
       successful_requests := if success then 1 else 0,
       failed_requests := if success then 0 else 1,
       total_cost_usd := if success then cost else 0 }]
  | s :: rest =>
    if s.provider = provider ∧ s.year = year ∧ s.month = month then
      { s with
        total_requests := s.total_requests + 1,
        successful_requests := s.successful_requests + (if success then 1 else 0),
        failed_requests := s.failed_requests + (if success then 0 else 1),
        total_cost_usd := s.total_cost_usd + (if success then cost else 0) } :: rest
    else s :: updateSummaries provider year month success cost rest

/-- Embedding of an `EnrichmentLog` row as created by
`CostTracker.log_request` (cost charged only on success). -/
structure LogEntry where
  provider : String
  success : Bool
  cost_usd : ℚ
  deriving DecidableEq, Repr

/-- Embedding of `CostTracker.log_request` (src/utils/cost_tracker.py
lines 23-67): the effective cost is the override, else the provider's
configured cost; the log entry charges the cost only on success, and the
monthly summary is updated with that charged cost. -/
def log_request (ss : List CostSummary) (provider : String) (year month : Nat)
    (success : Bool) (cost_override : Option ℚ) : List CostSummary × LogEntry :=
  let cost := cost_override.getD (PROVIDER_COSTS provider)
  let log : LogEntry :=
    { provider := provider, success := success,
      cost_usd := if success then cost else 0 }
  (updateSummaries provider year month success (if success then cost else 0) ss, log)

/-- Embedding of `CostTracker.get_monthly_spend`: sum of
`total_cost_usd` over all summaries of the current month (`total or 0.0`
on the empty sum). -/
def get_monthly_spend (ss : List CostSummary) (year month : Nat) : ℚ :=
  ((ss.filter (fun s => s.year == year && s.month == month)).map
    (fun s => s.total_cost_usd)).sum

/-- Embedding of `CostTracker.check_budget` (src/utils/cost_tracker.py
lines 194-200): always true without hard stop, else spend strictly below
budget. -/
def check_budget (hardStop : Bool) (ss : List CostSummary) (year month : Nat)
    (budget : ℚ) : Bool :=
  if !hardStop then true
  else decide (get_monthly_spend ss year month < budget)

/-- State of the budget scenario: $9.99 already spent on apollo this
month, with a $10.00 monthly budget. -/
def budgetScenario : List CostSummary :=
  [{ provider := "apollo", year := 2025, month := 10,
     total_requests := 333, successful_requests := 333, failed_requests := 0,
     total_cost_usd := 999/100 }]

/-- Summaries after logging one successful $0.03 apollo call on the
scenario state. -/
def afterLog : List CostSummary :=
  (log_request budgetScenario "apollo" 2025 10 true none).1

theorem spend_cons (s : CostSummary) (ss : List CostSummary) (y m : Nat) :
    get_monthly_spend (s :: ss) y m =
      (if (s.year == y && s.month == m) = true then s.total_cost_usd else 0) +
        get_monthly_spend ss y m := by
  unfold get_monthly_spend
  rw [List.filter_cons]
  by_cases h : (s.year == y && s.month == m) = true
  · simp [h]
  · simp [h]

theorem spend_updateSummaries (provider : String) (year month : Nat)
    (success : Bool) (cost : ℚ) : ∀ ss : List CostSummary,
    get_monthly_spend (updateSummaries provider year month success cost ss) year month =
      get_monthly_spend ss year month + (if success then cost else 0) := by
  intro ss
  induction ss with
  | nil =>
    cases success <;> simp [updateSummaries, get_monthly_spend]
  | cons s rest ih =>
    by_cases h : s.provider = provider ∧ s.year = year ∧ s.month = month
    · have hrw : updateSummaries provider year month success cost (s :: rest) =
          { s with
            total_requests := s.total_requests + 1,
            successful_requests := s.successful_requests + (if success then 1 else 0),
            failed_requests := s.failed_requests + (if success then 0 else 1),
            total_cost_usd := s.total_cost_usd + (if success then cost else 0) } :: rest := by
        simp only [updateSummaries]
        rw [if_pos h]
      rw [hrw, spend_cons, spend_cons]
      obtain ⟨hp, hy, hm⟩ := h
      have hmatch : (s.year == year && s.month == month) = true := by
        simp [hy, hm]
      simp [hmatch]
      try ring
    · have hrw : updateSummaries provider year month success cost (s :: rest) =
          s :: updateSummaries provider year month success cost rest := by
        simp only [updateSummaries]
        rw [if_neg h]
      rw [hrw, spend_cons, spend_cons, ih]
      ring

/-- C3: with hard stop enabled `check_budget` is true iff the month's
recorded spend is strictly below the monthly budget, and with hard stop
disabled it is always true; in the scenario with a $10.00 budget and
$9.99 already spent it returns true, logging one successful $0.03 apollo
call raises the month's spend to $10.02, after which it returns false —
and it stays false because logging never decreases the monthly spend
(provider costs and overrides being nonnegative). -/
theorem C3_theorem :
    (∀ (ss : List CostSummary) (y m : Nat) (b : ℚ),
      check_budget true ss y m b = true ↔ get_monthly_spend ss y m < b)
    ∧ (∀ (ss : List CostSummary) (y m : Nat) (b : ℚ),
      check_budget false ss y m b = true)
    ∧ (check_budget true budgetScenario 2025 10 10 = true
      ∧ get_monthly_spend afterLog 2025 10 = 501/50
      ∧ check_budget true afterLog 2025 10 10 = false)
    ∧ (∀ (ss : List CostSummary) (p : String) (y m : Nat) (succ : Bool)
        (co : Option ℚ),
      0 ≤ co.getD (PROVIDER_COSTS p) →
      get_monthly_spend ss y m ≤
        get_monthly_spend (log_request ss p y m succ co).1 y m) := by
  refine ⟨?_, ?_, ⟨?_, ?_, ?_⟩, ?_⟩
  · intro ss y m b
    simp [check_budget]
  · intro ss y m b
    simp [check_budget]
  · simp only [check_budget, Bool.not_true, if_false, decide_eq_true_eq]
    norm_num [get_monthly_spend, budgetScenario]
  · norm_num [afterLog, log_request, updateSummaries, PROVIDER_COSTS,
      get_monthly_spend, budgetScenario]
  · simp only [check_budget, Bool.not_true, if_false, decide_eq_false_iff_not, not_lt]
    norm_num [afterLog, log_request, updateSummaries, PROVIDER_COSTS,
      get_monthly_spend, budgetScenario]
  · intro ss p y m succ co hco
    show get_monthly_spend ss y m ≤
      get_monthly_spend
        (updateSummaries p y m succ
          (if succ then co.getD (PROVIDER_COSTS p) else 0) ss) y m
    rw [spend_updateSummaries]
    cases succ <;> simp <;> linarith

/-- C3 witness: logging a successful apollo call with the default cost
does not decrease the month's spend of the scenario state. -/
theorem C3_witness :
    (0 : ℚ) ≤ (none : Option ℚ).getD (PROVIDER_COSTS "apollo")
    ∧ get_monthly_spend budgetScenario 2025 10 ≤
        get_monthly_spend (log_request budgetScenario "apollo" 2025 10 true none).1 2025 10 :=
  ⟨by norm_num [PROVIDER_COSTS],
    C3_theorem.2.2.2 budgetScenario "apollo" 2025 10 true none
      (by norm_num [PROVIDER_COSTS])⟩

end Cost

namespace SeqSched

/-- Modelled from the spec: the `SequenceStatus` enum of the sequence
data model is absent from src/core/models.py (sequences.py imports it
from there); the spec fixes the members
ACTIVE/COMPLETED/REPLIED/BOUNCED/UNSUBSCRIBED with every non-ACTIVE value
terminal, and the callers in src/pipeline/stages/sequences.py fix the
lowercase member values used by the `SequenceStatus(reason)` lookups. -/
inductive SequenceStatus where
  | active
  | completed
  | replied
  | bounced
  | unsubscribed
  deriving DecidableEq, Repr

/-- Embedding of `EmailStatus` (src/core/models.py lines 51-58). -/
inductive EmailStatus where
  | pending
  | valid
  | invalid
  | catch_all
  | unknown
  deriving DecidableEq, Repr

/-- Modelled from the spec: a `SequenceStep` row (class absent from
src/core/models.py): unique step_number and delay_days, templates
omitted. -/
structure SeqStep where
  step_number : Nat
  delay_days : Nat
  deriving DecidableEq, Repr

/-- Modelled from the spec: a `Sequence` row (class absent from
src/core/models.py): activity flags and steps ordered by step_number via
the relationship. -/
structure SeqDef where
  is_active : Bool
  is_paused : Bool
  steps : List SeqStep
  deriving DecidableEq, Repr

/-- Embedding of the `Contact` fields the scheduler reads. -/
structure Contact where
  email : Option String
  unsubscribed : Bool
  email_status : EmailStatus
  deriving DecidableEq, Repr

/-- Embedding of the `Lead` fields the scheduler reads. -/
structure Lead where
  contact_id : Option Nat
  deriving DecidableEq, Repr

/-- Modelled from the spec: a `SequenceEnrollment` row (class absent
from src/core/models.py): current_step, status, next_send_at and
last_step_sent_at, timestamps as rational seconds. -/
structure Enrollment where
  current_step : Nat
  status : SequenceStatus
  next_send_at : Option ℚ
  last_step_sent_at : Option ℚ
  deriving DecidableEq, Repr

/-- Lookup of a `SequenceStatus` member by value string, embedding the
Python enum call `SequenceStatus(reason)`. -/
def statusOfReason (r : String) : Option SequenceStatus :=
  if r = "active" then some .active
  else if r = "completed" then some .completed
  else if r = "replied" then some .replied
  else if r = "bounced" then some .bounced
  else if r = "unsubscribed" then some .unsubscribed
  else none

/-- Python truthiness of `contact.email` (`not contact.email`). -/
def emailTruthy : Option String → Bool
  | none => false
  | some s => !(s == "")

/-- Embedding of the per-enrollment body of `process_pending_sequences`
(src/pipeline/stages/sequences.py lines 65-153) for one due ACTIVE
enrollment: the loaded sequence, lead and contact are passed as the
query results, `sendSuccess` as the outcome of `send_lead_email`; the
second component records whether a send was attempted. -/
def processOne (sq? : Option SeqDef) (lead? : Option Lead) (contact? : Option Contact)
    (sendSuccess : Bool) (now : ℚ) (e : Enrollment) : Enrollment × Bool :=
  match sq? with
  | none => (e, false)
  | some sq =>
    if !sq.is_active || sq.is_paused then (e, false)
    else
      match sq.steps.find? (fun s => decide (e.current_step < s.step_number)) with
      | none => ({ e with status := .completed }, false)
      | some step =>
        match lead? with
        | none => ({ e with status := .completed }, false)
        | some ld =>
          match ld.contact_id with
          | none => ({ e with status := .completed }, false)
          | some _ =>
            match contact? with
            | none => ({ e with status := .completed }, false)
            | some c =>
              if !emailTruthy c.email then ({ e with status := .completed }, false)
              else if c.unsubscribed || c.email_status == .invalid then
                (match statusOfReason (if c.unsubscribed then "unsubscribed" else "bounced") with
                  | some st => ({ e with status := st }, false)
                  | none => (e, false))
              else
                if sendSuccess then
                  match sq.steps.find? (fun s => decide (step.step_number < s.step_number)) with
                  | some fs =>
                    ({ e with
                        current_step := step.step_number,
                        last_step_sent_at := some now,
                        next_send_at := some (now + fs.delay_days * 86400) }, true)
                  | none =>
                    ({ e with
                        current_step := step.step_number,
                        last_step_sent_at := some now,
                        status := .completed,
                        next_send_at := none }, true)
                else
                  ({ e with next_send_at := some (now + 3600) }, true)

/-- Embedding of the `valid_reasons.get(reason, SequenceStatus.COMPLETED)`
mapping of `stop_enrollment` (src/pipeline/stages/sequences.py lines
250-255). -/
def stopStatusOf (r : String) : SequenceStatus :=
  if r = "replied" then .replied
  else if r = "bounced" then .bounced
  else if r = "unsubscribed" then .unsubscribed
  else .completed

/-- Embedding of `stop_enrollment` (src/pipeline/stages/sequences.py
lines 239-274) acting on the given lead's enrollments: every ACTIVE one
gets the mapped status and a cleared next_send_at; the count of changed
rows is returned. -/
def stop_enrollment (reason : String) (enrs : List Enrollment) :
    List Enrollment × Nat :=
  (enrs.map (fun e =>
      if e.status == .active then
        { e with status := stopStatusOf reason, next_send_at := none }
      else e),
    (enrs.filter (fun e => e.status == .active)).length)

/-- Life of one enrollment: a scheduler pass touching it (with the
environment its queries would load) or a webhook-driven stop. -/
inductive Event where
  | tick (sq? : Option SeqDef) (lead? : Option Lead) (contact? : Option Contact)
      (sendSuccess : Bool) (now : ℚ)
  | stop (reason : String)

/-- Selection predicate of the processing query
(`status == ACTIVE, next_send_at <= now`; a NULL next_send_at never
satisfies the SQL comparison). -/
def dueActive (e : Enrollment) (now : ℚ) : Bool :=
  e.status == .active &&
    (match e.next_send_at with
     | some t => decide (t ≤ now)
     | none => false)

/-- One event applied to one enrollment; the Bool records whether a send
was attempted. -/
def stepEvent (e : Enrollment) : Event → Enrollment × Bool
  | .tick sq? lead? contact? ok now =>
    if dueActive e now then processOne sq? lead? contact? ok now e else (e, false)
  | .stop reason =>
    if e.status == .active then
      ({ e with status := stopStatusOf reason, next_send_at := none }, false)
    else (e, false)

/-- State of one enrollment after a trace of events. -/
def runTrace (e : Enrollment) : List Event → Enrollment
  | [] => e
  | ev :: evs => runTrace (stepEvent e ev).1 evs

/-- Number of send attempts performed for one enrollment along a trace. -/
def sendsIn (e : Enrollment) : List Event → Nat
  | [] => 0
  | ev :: evs => (if (stepEvent e ev).2 then 1 else 0) + sendsIn (stepEvent e ev).1 evs

/-- Webhook event types of the resend handler (src/app.py). -/
inductive WebhookEvent where
  | delivered
  | opened
  | clicked
  | bounced
  | complained
  | replied
  deriving DecidableEq, Repr

/-- Reason string the webhook handler passes to `stop_enrollment` for
each event type (src/app.py lines 817-868); `none` for events that do
not stop enrollments. -/
def stopReasonOf : WebhookEvent → Option String
  | .bounced => some "bounced"
  | .complained => some "unsubscribed"
  | .replied => some "replied"
  | _ => none

/-- Terminal status the claim associates with each terminating webhook
event. -/
def terminalStatusOf : WebhookEvent → SequenceStatus
  | .bounced => .bounced
  | .complained => .unsubscribed
  | .replied => .replied
  | _ => .completed

/-- Embedding of the enrollment-stopping part of the webhook handler:
for a terminating event, `stop_enrollment` runs over every lead of the
contact (`leads` lists each lead's enrollments); other events leave
enrollments untouched. -/
def processWebhook (ev : WebhookEvent) (leads : List (List Enrollment)) :
    List (List Enrollment) × Nat :=
  match stopReasonOf ev with
  | none => (leads, 0)
  | some r =>
    (leads.map (fun enrs => (stop_enrollment r enrs).1),
      (leads.map (fun enrs => (stop_enrollment r enrs).2)).sum)

end SeqSched

namespace SeqSched

theorem processOne_step_le (sq? : Option SeqDef) (lead? : Option Lead)
    (contact? : Option Contact) (ok : Bool) (now : ℚ) (e : Enrollment) :
    e.current_step ≤ (processOne sq? lead? contact? ok now e).1.current_step := by
  unfold processOne
  split
  · exact Nat.le_refl _
  · split
    · exact Nat.le_refl _
    · split
      · exact Nat.le_refl _
      · rename_i sq _ step hfind
        have h1 := List.find?_some hfind
        have hlt : e.current_step < step.step_number := by simpa using h1
        split
        · exact Nat.le_refl _
        · split
          · exact Nat.le_refl _
          · split
            · exact Nat.le_refl _
            · split
              · exact Nat.le_refl _
              · split
                · split
                  · exact Nat.le_refl _
                  · exact Nat.le_refl _
                · split
                  · split <;> exact Nat.le_of_lt hlt
                  · exact Nat.le_refl _

theorem stepEvent_step_le (e : Enrollment) (ev : Event) :
    e.current_step ≤ (stepEvent e ev).1.current_step := by
  cases ev with
  | tick sq? lead? contact? ok now =>
    by_cases h : dueActive e now = true
    · simpa [stepEvent, h] using processOne_step_le sq? lead? contact? ok now e
    · simp [stepEvent, h]
  | stop reason =>
    by_cases h : (e.status == SequenceStatus.active) = true
    · simp [stepEvent, h]
    · simp [stepEvent, h]

theorem stepEvent_frozen (e : Enrollment) (ev : Event) (h : e.status ≠ .active) :
    stepEvent e ev = (e, false) := by
  have hb : (e.status == SequenceStatus.active) = false := by
    cases hs : e.status <;> simp_all
  cases ev with
  | tick sq? lead? contact? ok now =>
    unfold stepEvent dueActive
    simp [hb]
  | stop reason =>
    unfold stepEvent
    simp [hb]

theorem runTrace_step_le (evs : List Event) : ∀ e : Enrollment,
    e.current_step ≤ (runTrace e evs).current_step := by
  induction evs with
  | nil => intro e; exact Nat.le_refl _
  | cons ev evs ih =>
    intro e
    calc e.current_step ≤ (stepEvent e ev).1.current_step := stepEvent_step_le e ev
      _ ≤ (runTrace (stepEvent e ev).1 evs).current_step := ih _
      _ = (runTrace e (ev :: evs)).current_step := rfl

theorem runTrace_frozen (evs : List Event) : ∀ e : Enrollment, e.status ≠ .active →
    runTrace e evs = e := by
  induction evs with
  | nil => intro e _; rfl
  | cons ev evs ih =>
    intro e he
    show runTrace (stepEvent e ev).1 evs = e
    rw [stepEvent_frozen e ev he]
    exact ih e he

theorem sendsIn_frozen (evs : List Event) : ∀ e : Enrollment, e.status ≠ .active →
    sendsIn e evs = 0 := by
  induction evs with
  | nil => intro e _; rfl
  | cons ev evs ih =>
    intro e he
    show (if (stepEvent e ev).2 then 1 else 0) + sendsIn (stepEvent e ev).1 evs = 0
    rw [stepEvent_frozen e ev he]
    simpa using ih e he

/-- C9: along any interleaving of scheduler passes and webhook stops,
an enrollment's current_step never decreases, and from any state with a
non-ACTIVE status the enrollment is frozen: no later event changes it
and no send is ever attempted for it again. -/
theorem C9_theorem :
    (∀ (e : Enrollment) (evs : List Event),
      e.current_step ≤ (runTrace e evs).current_step)
    ∧ (∀ (e : Enrollment) (evs : List Event),
      e.status ≠ .active → runTrace e evs = e ∧ sendsIn e evs = 0) :=
  ⟨fun e evs => runTrace_step_le evs e,
    fun e evs he => ⟨runTrace_frozen evs e he, sendsIn_frozen evs e he⟩⟩

/-- C9 witness: a COMPLETED enrollment stays unchanged and unsent
through a stop event and a due scheduler tick. -/
theorem C9_witness :
    ((⟨3, .completed, some 0, none⟩ : Enrollment).status ≠ .active)
    ∧ runTrace ⟨3, .completed, some 0, none⟩
        [Event.stop "bounced",
          Event.tick (some ⟨true, false, [⟨4, 1⟩]⟩) (some ⟨some 1⟩)
            (some ⟨some "a@b.c", false, .valid⟩) true 5] =
        ⟨3, .completed, some 0, none⟩
    ∧ sendsIn ⟨3, .completed, some 0, none⟩
        [Event.stop "bounced",
          Event.tick (some ⟨true, false, [⟨4, 1⟩]⟩) (some ⟨some 1⟩)
            (some ⟨some "a@b.c", false, .valid⟩) true 5] = 0 :=
  ⟨by decide,
    (C9_theorem.2 ⟨3, .completed, some 0, none⟩ _ (by decide)).1,
    (C9_theorem.2 ⟨3, .completed, some 0, none⟩ _ (by decide)).2⟩

theorem stopStatusOf_ne_active (r : String) : stopStatusOf r ≠ .active := by
  unfold stopStatusOf
  split_ifs <;> simp

theorem stop_changed_eq_count (reason : String) : ∀ enrs : List Enrollment,
    (((stop_enrollment reason enrs).1.zip enrs).filter
      (fun p => decide (p.1 ≠ p.2))).length = (stop_enrollment reason enrs).2 := by
  intro enrs
  induction enrs with
  | nil => rfl
  | cons e rest ih =>
    unfold stop_enrollment at ih ⊢
    simp only [List.map_cons, List.zip_cons_cons, List.filter_cons]
    by_cases ha : (e.status == SequenceStatus.active) = true
    · have hne : ({ e with status := stopStatusOf reason, next_send_at := none } : Enrollment) ≠ e := by
        intro hcontra
        have hstat := congrArg Enrollment.status hcontra
        simp only at hstat
        have : e.status = SequenceStatus.active := by simpa using ha
        rw [this] at hstat
        exact stopStatusOf_ne_active reason hstat
      simp only [ha, if_pos]
      rw [if_pos (by simpa using hne)]
      simp only [List.length_cons]
      rw [ih]
    · simp only [ha]
      rw [if_neg (by simp)]
      rw [ih]
      simp [ha]

/-- C10: for any reason outside the recognised set, stop_enrollment
falls back to COMPLETED: every ACTIVE enrollment of the lead becomes
COMPLETED with next_send_at cleared, non-ACTIVE enrollments are left
unchanged, and the returned count equals the number of enrollments
actually changed. -/
theorem C10_theorem (reason : String) (enrs : List Enrollment)
    (h1 : reason ≠ "replied") (h2 : reason ≠ "bounced")
    (h3 : reason ≠ "unsubscribed") :
    stop_enrollment reason enrs =
      (enrs.map (fun e =>
        if e.status == .active then
          { e with status := .completed, next_send_at := none }
        else e),
        (enrs.filter (fun e => e.status == .active)).length)
    ∧ (((stop_enrollment reason enrs).1.zip enrs).filter
        (fun p => decide (p.1 ≠ p.2))).length = (stop_enrollment reason enrs).2 := by
  have hfall : stopStatusOf reason = .completed := by
    unfold stopStatusOf
    rw [if_neg h1, if_neg h2, if_neg h3]
  constructor
  · unfold stop_enrollment
    rw [hfall]
  · exact stop_changed_eq_count reason enrs

/-- C10 witness: the unrecognised reason "stopped" completes the single
ACTIVE enrollment, leaves the REPLIED one alone, and reports one change. -/
theorem C10_witness :
    (("stopped" : String) ≠ "replied" ∧ ("stopped" : String) ≠ "bounced"
      ∧ ("stopped" : String) ≠ "unsubscribed")
    ∧ (stop_enrollment "stopped"
        [⟨1, .active, some 5, none⟩, ⟨2, .replied, none, none⟩] =
        ([⟨1, .active, some 5, none⟩, ⟨2, .replied, none, none⟩].map (fun e =>
          if e.status == .active then
            { e with status := .completed, next_send_at := none }
          else e),
          ([⟨1, .active, some 5, none⟩,
            (⟨2, .replied, none, none⟩ : Enrollment)].filter
            (fun e => e.status == .active)).length)
      ∧ (((stop_enrollment "stopped"
          [⟨1, .active, some 5, none⟩, ⟨2, .replied, none, none⟩]).1.zip
          [⟨1, .active, some 5, none⟩, ⟨2, .replied, none, none⟩]).filter
          (fun p => decide (p.1 ≠ p.2))).length =
        (stop_enrollment "stopped"
          [⟨1, .active, some 5, none⟩, ⟨2, .replied, none, none⟩]).2) :=
  ⟨⟨by decide, by decide, by decide⟩,
    C10_theorem "stopped" [⟨1, .active, some 5, none⟩, ⟨2, .replied, none, none⟩]
      (by decide) (by decide) (by decide)⟩

end SeqSched

namespace SeqSched

/-- An active, unpaused two-step sequence used in counterexamples. -/
def c4seq : SeqDef := { is_active := true, is_paused := false, steps := [⟨1, 1⟩, ⟨2, 3⟩] }

/-- A lead with a contact reference. -/
def c4lead : Lead := { contact_id := some 7 }

/-- A contact that unsubscribed after enrollment, still holding a valid
email address. -/
def c4contact : Contact :=
  { email := some "x@acme.io", unsubscribed := true, email_status := .valid }

/-- A due ACTIVE enrollment at step 0. -/
def c4enr : Enrollment :=
  { current_step := 0, status := .active, next_send_at := some 0, last_step_sent_at := none }

/-- C4 counterexample: for a due ACTIVE enrollment whose contact has
unsubscribed, the scheduler performs no send but sets the status to
UNSUBSCRIBED — not to COMPLETED as the claim states
(`enrollment.status = SequenceStatus(reason)` in
src/pipeline/stages/sequences.py line 113). -/
theorem C4_counterexample :
    (processOne (some c4seq) (some c4lead) (some c4contact) true 0 c4enr).1.status =
      SequenceStatus.unsubscribed
    ∧ (processOne (some c4seq) (some c4lead) (some c4contact) true 0 c4enr).1.status ≠
      SequenceStatus.completed
    ∧ (processOne (some c4seq) (some c4lead) (some c4contact) true 0 c4enr).2 = false := by
  refine ⟨by decide, by decide, by decide⟩

/-- C4 (amended): for every due ACTIVE enrollment whose loaded sequence
is active and unpaused, with a pending step, a lead, and a contact with
a (truthy) email, if the contact has become unsubscribed or its email
status is invalid, the scheduler performs no send and sets the status to
UNSUBSCRIBED (when unsubscribed) or BOUNCED (when email-invalid), leaving
the other fields unchanged — the recheck happens at send time. -/
theorem C4_theorem (sq : SeqDef) (ld : Lead) (c : Contact) (ok : Bool) (now : ℚ)
    (e : Enrollment) (cid : Nat) (step : SeqStep)
    (hact : sq.is_active = true) (hpau : sq.is_paused = false)
    (hfind : sq.steps.find? (fun s => decide (e.current_step < s.step_number)) = some step)
    (hcid : ld.contact_id = some cid)
    (hem : emailTruthy c.email = true)
    (hflag : c.unsubscribed = true ∨ c.email_status = .invalid) :
    processOne (some sq) (some ld) (some c) ok now e =
      ({ e with status := if c.unsubscribed then SequenceStatus.unsubscribed
          else SequenceStatus.bounced }, false) := by
  unfold processOne
  simp only [hact, hpau, Bool.not_true, Bool.or_self, Bool.false_eq_true, if_false,
    hfind, hcid, hem, Bool.not_true]
  by_cases hu : c.unsubscribed = true
  · simp only [hu, Bool.true_or, if_pos, if_true]
    rw [show statusOfReason "unsubscribed" = some SequenceStatus.unsubscribed from rfl]
  · have hb : c.unsubscribed = false := by
      cases hcu : c.unsubscribed
      · rfl
      · exact absurd hcu hu
    have hv : c.email_status = .invalid := by
      rcases hflag with h | h
      · exact absurd h hu
      · exact h
    simp only [hb, hv, Bool.false_or, Bool.false_eq_true, if_false]
    rw [show (EmailStatus.invalid == EmailStatus.invalid) = true from rfl]
    simp only [if_true]
    rw [show statusOfReason "bounced" = some SequenceStatus.bounced from rfl]

/-- C4 witness: the amended statement at the concrete unsubscribed
contact. -/
theorem C4_witness :
    (c4seq.is_active = true ∧ c4seq.is_paused = false
      ∧ c4seq.steps.find? (fun s => decide (c4enr.current_step < s.step_number)) = some ⟨1, 1⟩
      ∧ c4lead.contact_id = some 7
      ∧ emailTruthy c4contact.email = true
      ∧ (c4contact.unsubscribed = true ∨ c4contact.email_status = .invalid))
    ∧ processOne (some c4seq) (some c4lead) (some c4contact) true 0 c4enr =
        ({ c4enr with status := if c4contact.unsubscribed then SequenceStatus.unsubscribed
            else SequenceStatus.bounced }, false) :=
  ⟨⟨rfl, rfl, by decide, rfl, by decide, Or.inl rfl⟩,
    C4_theorem c4seq c4lead c4contact true 0 c4enr 7 ⟨1, 1⟩
      rfl rfl (by decide) rfl (by decide) (Or.inl rfl)⟩

end SeqSched

namespace SeqSched

/-- C6: for a bounce, spam-complaint or reply webhook event, every lead
of the contact is processed with the same per-enrollment update in one
logical operation: every previously ACTIVE enrollment gets the matching
terminal status (BOUNCED, UNSUBSCRIBED, REPLIED respectively) with
next_send_at cleared, every non-ACTIVE enrollment is untouched, and the
stopped enrollments can never be sent to again. -/
theorem C6_theorem (ev : WebhookEvent)
    (hev : ev = .bounced ∨ ev = .complained ∨ ev = .replied)
    (leads : List (List Enrollment)) :
    ∃ g : Enrollment → Enrollment,
      (processWebhook ev leads).1 = leads.map (List.map g)
      ∧ (∀ e : Enrollment, e.status ≠ .active → g e = e)
      ∧ (∀ e : Enrollment, e.status = .active →
          g e = { e with status := terminalStatusOf ev, next_send_at := none })
      ∧ (∀ (e : Enrollment) (evs : List Event),
          e.status = .active → sendsIn (g e) evs = 0) := by
  obtain ⟨r, hr, hst⟩ : ∃ r, stopReasonOf ev = some r
      ∧ stopStatusOf r = terminalStatusOf ev := by
    rcases hev with h | h | h <;> subst h
    · exact ⟨"bounced", rfl, rfl⟩
    · exact ⟨"unsubscribed", rfl, rfl⟩
    · exact ⟨"replied", rfl, rfl⟩
  refine ⟨fun e =>
      if e.status == .active then
        { e with status := stopStatusOf r, next_send_at := none }
      else e, ?_, ?_, ?_, ?_⟩
  · simp [processWebhook, hr, stop_enrollment]
  · intro e he
    have hb : (e.status == SequenceStatus.active) = false := by
      cases hs : e.status <;> simp_all
    simp [hb]
  · intro e he
    simp [he, hst]
  · intro e evs he
    apply sendsIn_frozen
    simp only [he]
    rw [show ((SequenceStatus.active == SequenceStatus.active) = true) from rfl]
    simp only [if_true]
    intro hcontra
    exact stopStatusOf_ne_active r hcontra

/-- Enrollments of two leads of one contact: each lead holds one ACTIVE
and one non-ACTIVE enrollment. -/
def c6leads : List (List Enrollment) :=
  [[⟨0, .active, some 1, none⟩, ⟨2, .completed, none, none⟩],
   [⟨1, .active, some 4, none⟩, ⟨3, .replied, none, none⟩]]

/-- C6 witness: the bounce event applied to the two leads of the
contact. -/
theorem C6_witness :
    (WebhookEvent.bounced = WebhookEvent.bounced
      ∨ WebhookEvent.bounced = WebhookEvent.complained
      ∨ WebhookEvent.bounced = WebhookEvent.replied)
    ∧ ∃ g : Enrollment → Enrollment,
      (processWebhook .bounced c6leads).1 = c6leads.map (List.map g)
      ∧ (∀ e : Enrollment, e.status ≠ .active → g e = e)
      ∧ (∀ e : Enrollment, e.status = .active →
          g e = { e with status := terminalStatusOf .bounced, next_send_at := none })
      ∧ (∀ (e : Enrollment) (evs : List Event),
          e.status = .active → sendsIn (g e) evs = 0) :=
  ⟨Or.inl rfl, C6_theorem .bounced (Or.inl rfl) c6leads⟩

end SeqSched

namespace Orch

/-- The part of a stage's returned dict that `run_stages` inspects: its
optional "error" value. -/
structure StageRes where
  error : Option String
  deriving DecidableEq, Repr

/-- Possible outcomes of `_execute_stage`: a normal return, a raised
`BudgetExceeded`, or any other raised exception with its message. -/
inductive StageOutcome where
  | ok (res : StageRes)
  | budgetExceeded (spent budget : ℚ)
  | failure (msg : String)

/-- Embedding of `PipelineOrchestrator.run_stage`
(src/pipeline/orchestrator.py lines 111-150): invalid stage numbers give
an error result, `BudgetExceeded` is caught into an
error="Budget exceeded" result, any other exception is caught into an
error=str(e) result; no outcome propagates an exception. -/
def run_stage (env : Nat → StageOutcome) (stage : Nat) : StageRes :=
  if stage < 1 ∨ 9 < stage then { error := some "Invalid stage" }
  else
    match env stage with
    | .ok r => r
    | .budgetExceeded _ _ => { error := some "Budget exceeded" }
    | .failure m => { error := some m }

/-- Test that one character list starts with another. -/
def startsWithSeq : List Char → List Char → Bool
  | [], _ => true
  | _ :: _, [] => false
  | p :: ps, c :: cs => p == c && startsWithSeq ps cs

/-- Python `in` on strings: contiguous-substring containment, on the
character lists of the strings. -/
def hasSubSeq (pat : List Char) : List Char → Bool
  | [] => pat.isEmpty
  | c :: rest => startsWithSeq pat (c :: rest) || hasSubSeq pat rest

/-- Embedding of the stop test of `run_stages`
(`result.get("error") and "Budget exceeded" in str(result.get("error", ""))`);
the truthiness guard and the containment agree because the pattern is
nonempty. -/
def haltsRange (r : StageRes) : Bool :=
  match r.error with
  | none => false
  | some m => hasSubSeq ("Budget exceeded".toList) m.toList

/-- Embedding of the loop of `PipelineOrchestrator.run_stages`
(src/pipeline/orchestrator.py lines 263-266) over a list of stage
numbers, returning the stages actually executed (the loop breaks after a
halting result). -/
def run_stages_list (env : Nat → StageOutcome) : List Nat → List Nat
  | [] => []
  | s :: rest =>
    if haltsRange (run_stage env s) then [s]
    else s :: run_stages_list env rest

/-- Embedding of `run_stages(start, end)`: `range(start, end + 1)`. -/
def run_stages (env : Nat → StageOutcome) (start endS : Nat) : List Nat :=
  run_stages_list env (List.range' start (endS + 1 - start))

/-- Per-company outcome inside `enrich_companies_batch`: enrichment with
data, cascade returning no data, a raised `BudgetExceeded`, or another
exception. -/
inductive EntityOutcome where
  | enriched
  | noData
  | budget
  | error (msg : String)
  deriving DecidableEq, Repr

/-- Batch summary dict of `enrich_companies_batch`: it carries an
"errors" list but never an "error" key. -/
structure BatchStats where
  total : Nat
  enriched : Nat
  failed : Nat
  errors : List String
  deriving DecidableEq, Repr

/-- Embedding of the entity loop of `enrich_companies_batch`
(src/pipeline/stages/company_enrichment.py lines 174-188): failures are
counted and recorded per company and the loop continues; a raised
`BudgetExceeded` is caught, recorded in the errors list, and breaks the
loop. -/
def batchLoop : List EntityOutcome → Nat → Nat → List String → Nat × Nat × List String
  | [], enr, fl, errs => (enr, fl, errs)
  | o :: rest, enr, fl, errs =>
    match o with
    | .enriched => batchLoop rest (enr + 1) fl errs
    | .noData => batchLoop rest enr (fl + 1) errs
    | .budget =>
      (enr, fl, errs ++ ["Budget exceeded after " ++ toString enr ++ " companies"])
    | .error m => batchLoop rest enr (fl + 1) (errs ++ [m])

/-- Embedding of `enrich_companies_batch` as seen by the orchestrator:
the loop runs, and a summary with at most 20 error samples is returned
normally. -/
def enrich_companies_batch (entities : List EntityOutcome) : BatchStats :=
  let r := batchLoop entities 0 0 []
  { total := entities.length, enriched := r.1, failed := r.2.1,
    errors := r.2.2.take 20 }

/-- The stage result the orchestrator sees for a batch stage: the
summary dict has no "error" key, whatever happened inside. -/
def stageResOfBatch (_ : BatchStats) : StageRes := { error := none }

end Orch

namespace Orch

/-- Messages of the per-entity failures, in order. -/
def entityErrors (entities : List EntityOutcome) : List String :=
  entities.filterMap (fun o =>
    match o with
    | .error m => some m
    | _ => none)

theorem batchLoop_no_budget : ∀ (entities : List EntityOutcome) (enr fl : Nat)
    (errs : List String), EntityOutcome.budget ∉ entities →
    (batchLoop entities enr fl errs).1 + (batchLoop entities enr fl errs).2.1
        = enr + fl + entities.length
    ∧ (batchLoop entities enr fl errs).2.2 = errs ++ entityErrors entities := by
  intro entities
  induction entities with
  | nil =>
    intro enr fl errs _
    simp [batchLoop, entityErrors]
  | cons o rest ih =>
    intro enr fl errs hmem
    have hne : o ≠ .budget := fun h => hmem (h ▸ List.mem_cons_self _ _)
    have hrest : EntityOutcome.budget ∉ rest := fun h => hmem (List.mem_cons_of_mem _ h)
    cases o with
    | enriched =>
      have h := ih (enr + 1) fl errs hrest
      refine ⟨?_, ?_⟩
      · show (batchLoop rest (enr + 1) fl errs).1 + (batchLoop rest (enr + 1) fl errs).2.1
            = enr + fl + (rest.length + 1)
        omega
      · show (batchLoop rest (enr + 1) fl errs).2.2 = errs ++ entityErrors (.enriched :: rest)
        rw [h.2]
        rfl
    | noData =>
      have h := ih enr (fl + 1) errs hrest
      refine ⟨?_, ?_⟩
      · show (batchLoop rest enr (fl + 1) errs).1 + (batchLoop rest enr (fl + 1) errs).2.1
            = enr + fl + (rest.length + 1)
        omega
      · show (batchLoop rest enr (fl + 1) errs).2.2 = errs ++ entityErrors (.noData :: rest)
        rw [h.2]
        rfl
    | budget => exact absurd rfl hne
    | error m =>
      have h := ih enr (fl + 1) (errs ++ [m]) hrest
      refine ⟨?_, ?_⟩
      · show (batchLoop rest enr (fl + 1) (errs ++ [m])).1
            + (batchLoop rest enr (fl + 1) (errs ++ [m])).2.1
            = enr + fl + (rest.length + 1)
        omega
      · show (batchLoop rest enr (fl + 1) (errs ++ [m])).2.2
            = errs ++ entityErrors (.error m :: rest)
        rw [h.2]
        show errs ++ [m] ++ entityErrors rest = errs ++ (m :: entityErrors rest)
        simp

theorem batchLoop_budget_break : ∀ (pre post : List EntityOutcome) (enr fl : Nat)
    (errs : List String), EntityOutcome.budget ∉ pre →
    batchLoop (pre ++ .budget :: post) enr fl errs =
      batchLoop (pre ++ [.budget]) enr fl errs := by
  intro pre
  induction pre with
  | nil => intro post enr fl errs _; rfl
  | cons o rest ih =>
    intro post enr fl errs hmem
    have hne : o ≠ .budget := fun h => hmem (h ▸ List.mem_cons_self _ _)
    have hrest : EntityOutcome.budget ∉ rest := fun h => hmem (List.mem_cons_of_mem _ h)
    cases o with
    | enriched => exact ih post (enr + 1) fl errs hrest
    | noData => exact ih post enr (fl + 1) errs hrest
    | budget => exact absurd rfl hne
    | error m => exact ih post enr (fl + 1) (errs ++ [m]) hrest

theorem run_stages_list_no_halt : ∀ (l : List Nat) (env : Nat → StageOutcome),
    (∀ s ∈ l, haltsRange (run_stage env s) = false) →
    run_stages_list env l = l := by
  intro l env
  induction l with
  | nil => intro _; rfl
  | cons s rest ih =>
    intro h
    have hs : haltsRange (run_stage env s) = false := h s (List.mem_cons_self _ _)
    show (if haltsRange (run_stage env s) then [s] else s :: run_stages_list env rest) = s :: rest
    rw [hs]
    simp only [Bool.false_eq_true, if_false]
    rw [ih (fun t ht => h t (List.mem_cons_of_mem _ ht))]

theorem run_stages_list_halt : ∀ (l1 : List Nat) (s : Nat) (l2 : List Nat)
    (env : Nat → StageOutcome),
    (∀ t ∈ l1, haltsRange (run_stage env t) = false) →
    haltsRange (run_stage env s) = true →
    run_stages_list env (l1 ++ s :: l2) = l1 ++ [s] := by
  intro l1
  induction l1 with
  | nil =>
    intro s l2 env _ hs
    show (if haltsRange (run_stage env s) then [s] else _) = [s]
    rw [hs]
    rfl
  | cons t rest ih =>
    intro s l2 env h hs
    have ht : haltsRange (run_stage env t) = false := h t (List.mem_cons_self _ _)
    show (if haltsRange (run_stage env t) then [t]
      else t :: run_stages_list env (rest ++ s :: l2)) = t :: (rest ++ [s])
    rw [ht]
    simp only [Bool.false_eq_true, if_false]
    rw [ih s l2 env (fun u hu => h u (List.mem_cons_of_mem _ hu)) hs]

end Orch

namespace Orch

/-- Environment of the C7 counterexample: every stage is a batch stage
whose entity loop hits `BudgetExceeded` at its second company; the batch
catches it and returns a normal summary. -/
def c7env : Nat → StageOutcome :=
  fun _ => .ok (stageResOfBatch (enrich_companies_batch [.enriched, .budget]))

/-- C7 counterexample: budget exhaustion inside a batch stage is caught
by the stage itself (recorded in its "errors" list), the stage returns a
summary without an "error" key, and the stage-range run still advances
through all later stages — so budget exhaustion does not stop the
multi-stage run, contradicting the claim that it halts the run early. -/
theorem C7_counterexample :
    (enrich_companies_batch [EntityOutcome.enriched, EntityOutcome.budget]).errors =
      ["Budget exceeded after 1 companies"]
    ∧ stageResOfBatch (enrich_companies_batch
        [EntityOutcome.enriched, EntityOutcome.budget]) = { error := none }
    ∧ run_stages c7env 2 4 = [2, 3, 4] :=
  ⟨by decide, rfl, by decide⟩

/-- C7 (amended): provider- and stage-local errors are caught and
recorded per entity without aborting the batch or the run, and the
stage-range runner stops early exactly on a stage result whose error
mentions "Budget exceeded" — which `run_stage` produces whenever a stage
propagates `BudgetExceeded`, and which a batch stage never produces
because it catches `BudgetExceeded` inside its entity loop (breaking
that batch only) and returns a summary without an error key. -/
theorem C7_theorem :
    (∀ entities : List EntityOutcome, EntityOutcome.budget ∉ entities →
      (enrich_companies_batch entities).enriched
          + (enrich_companies_batch entities).failed = entities.length
      ∧ (enrich_companies_batch entities).errors = (entityErrors entities).take 20)
    ∧ (∀ (pre post : List EntityOutcome), EntityOutcome.budget ∉ pre →
      batchLoop (pre ++ .budget :: post) 0 0 [] = batchLoop (pre ++ [.budget]) 0 0 [])
    ∧ (∀ (env : Nat → StageOutcome) (s : Nat), 1 ≤ s → s ≤ 9 →
      (∀ m, env s = .failure m → run_stage env s = { error := some m })
      ∧ (∀ a b : ℚ, env s = .budgetExceeded a b →
          run_stage env s = { error := some "Budget exceeded" })
      ∧ (∀ r, env s = .ok r → run_stage env s = r))
    ∧ (∀ (env : Nat → StageOutcome) (l : List Nat),
      (∀ s ∈ l, haltsRange (run_stage env s) = false) → run_stages_list env l = l)
    ∧ (∀ (env : Nat → StageOutcome) (l1 : List Nat) (s : Nat) (l2 : List Nat),
      (∀ t ∈ l1, haltsRange (run_stage env t) = false) →
      haltsRange (run_stage env s) = true →
      run_stages_list env (l1 ++ s :: l2) = l1 ++ [s])
    ∧ (haltsRange { error := some "Budget exceeded" } = true
      ∧ (∀ b : BatchStats, haltsRange (stageResOfBatch b) = false)) := by
  refine ⟨?_, ?_, ?_, ?_, ?_, by decide, fun _ => rfl⟩
  · intro entities hmem
    have h := batchLoop_no_budget entities 0 0 [] hmem
    constructor
    · show (batchLoop entities 0 0 []).1 + (batchLoop entities 0 0 []).2.1 = entities.length
      omega
    · show (batchLoop entities 0 0 []).2.2.take 20 = (entityErrors entities).take 20
      rw [h.2]
      rfl
  · intro pre post hmem
    exact batchLoop_budget_break pre post 0 0 [] hmem
  · intro env s h1 h9
    have hrange : ¬(s < 1 ∨ 9 < s) := by omega
    refine ⟨?_, ?_, ?_⟩
    · intro m hm
      unfold run_stage
      rw [if_neg hrange, hm]
    · intro a b hm
      unfold run_stage
      rw [if_neg hrange, hm]
    · intro r hm
      unfold run_stage
      rw [if_neg hrange, hm]
  · intro env l h
    exact run_stages_list_no_halt l env h
  · intro env l1 s l2 h hs
    exact run_stages_list_halt l1 s l2 env h hs

/-- Environment of the C7 witness: stage 3 propagates `BudgetExceeded`
to the orchestrator, the other stages return clean results. -/
def c7benv : Nat → StageOutcome :=
  fun s => if s = 3 then .budgetExceeded 11 10 else .ok { error := none }

/-- C7 witness: with a stage that propagates `BudgetExceeded` at stage
3, the range 2..4 executes stages 2 and 3 only. -/
theorem C7_witness :
    ((∀ t ∈ [2], haltsRange (run_stage c7benv t) = false)
      ∧ haltsRange (run_stage c7benv 3) = true)
    ∧ run_stages_list c7benv ([2] ++ 3 :: [4]) = [2] ++ [3] :=
  ⟨⟨by decide, by decide⟩,
    (C7_theorem.2.2.2.2.1) c7benv [2] 3 [4] (by decide) (by decide)⟩

end Orch

namespace Stage2

/-- Embedding of the `Company` fields stage 2 touches: id, the
`enriched_at` watermark, and a representative data field. -/
structure Company where
  id : Nat
  enriched_at : Option ℚ
  industry : Option String
  deriving DecidableEq, Repr

/-- Observable pipeline state for stage 2: the companies, the number of
EnrichmentLog rows, and the cumulative charged cost. -/
structure PipeState where
  companies : List Company
  logCount : Nat
  spend : ℚ
  deriving DecidableEq, Repr

/-- Provider behaviour per company id: the log rows (success flag,
charged cost) the adapters write during the cascade, and the merged
cascade data (`None` when no provider yields data). -/
structure EnrichWorld where
  logsOf : Nat → List (Bool × ℚ)
  dataOf : Nat → Option String

/-- Cost charged by a list of adapter log rows (only successes are
charged). -/
def chargeOf (logs : List (Bool × ℚ)) : ℚ :=
  (logs.map (fun l => if l.1 then l.2 else 0)).sum

/-- Budget gate at the stage-2 call site (`cost_tracker.check_budget`). -/
def check_budget (hardStop : Bool) (spend budget : ℚ) : Bool :=
  if !hardStop then true else decide (spend < budget)

/-- Embedding of `enrich_company`
(src/pipeline/stages/company_enrichment.py lines 18-63): the watermark
skip comes before the budget check and any provider call; an exhausted
budget raises `BudgetExceeded`; otherwise the cascade runs, its adapter
calls append log rows and charge costs, and only a non-empty enrichment
is applied and stamps `enriched_at`. -/
def enrich_company (w : EnrichWorld) (hardStop : Bool) (budget now : ℚ)
    (force : Bool) (st : PipeState) (c : Company) :
    Except (ℚ × ℚ) (Company × PipeState × Bool) :=
  if c.enriched_at.isSome && !force then .ok (c, st, true)
  else if !(check_budget hardStop st.spend budget) then .error (st.spend, budget)
  else
    let st1 : PipeState :=
      { st with
        logCount := st.logCount + (w.logsOf c.id).length,
        spend := st.spend + chargeOf (w.logsOf c.id) }
    match w.dataOf c.id with
    | none => .ok (c, st1, false)
    | some ind =>
      .ok ({ c with industry := some ind, enriched_at := some now }, st1, true)

/-- Write back an updated company row. -/
def updateCompany (cs : List Company) (c : Company) : List Company :=
  cs.map (fun x => if x.id == c.id then c else x)

/-- The entity loop of `enrich_companies_batch` (lines 174-188): a
raised `BudgetExceeded` is caught and breaks the loop; otherwise the
company row is written back and the loop continues. -/
def batchGo (w : EnrichWorld) (hardStop : Bool) (budget now : ℚ) (force : Bool) :
    List Company → PipeState → PipeState
  | [], st => st
  | c :: rest, st =>
    match enrich_company w hardStop budget now force st c with
    | .error _ => st
    | .ok (c2, st1, _) =>
      batchGo w hardStop budget now force rest
        { st1 with companies := updateCompany st1.companies c2 }

/-- Embedding of `enrich_companies_batch`
(src/pipeline/stages/company_enrichment.py lines 139-195): with
`force=false` the query selects only companies whose `enriched_at` is
NULL, limited, then runs the entity loop. -/
def enrich_companies_batch (w : EnrichWorld) (hardStop : Bool) (budget now : ℚ)
    (force : Bool) (limit : Nat) (st : PipeState) : PipeState :=
  let selected :=
    (if force then st.companies
     else st.companies.filter (fun c => c.enriched_at.isNone)).take limit
  batchGo w hardStop budget now force selected st

/-- Provider world of the C8 counterexample: the cascade logs one failed
adapter call and yields no data for every company. -/
def c8world : EnrichWorld :=
  { logsOf := fun _ => [(false, 0)], dataOf := fun _ => none }

/-- Initial state of the C8 counterexample: one company, never
enriched. -/
def c8st0 : PipeState :=
  { companies := [{ id := 1, enriched_at := none, industry := none }],
    logCount := 0, spend := 0 }

/-- C8 counterexample: when the cascade yields no data for a company,
the first invocation writes one EnrichmentLog row but sets no watermark,
so the second invocation with force=false re-selects the company, calls
the providers again and writes another log row — the state after the
second invocation differs from the state after the first, and new log
entries are created. -/
theorem c8_run1 : enrich_companies_batch c8world true 10 0 false 100 c8st0 =
    { companies := [{ id := 1, enriched_at := none, industry := none }],
      logCount := 1, spend := 0 } := by
  norm_num [enrich_companies_batch, batchGo, enrich_company, check_budget,
    c8world, c8st0, chargeOf, updateCompany]

theorem c8_run2 : enrich_companies_batch c8world true 10 0 false 100
    { companies := [{ id := 1, enriched_at := none, industry := none }],
      logCount := 1, spend := 0 } =
    { companies := [{ id := 1, enriched_at := none, industry := none }],
      logCount := 2, spend := 0 } := by
  norm_num [enrich_companies_batch, batchGo, enrich_company, check_budget,
    c8world, chargeOf, updateCompany]

theorem C8_counterexample :
    (enrich_companies_batch c8world true 10 0 false 100 c8st0).logCount = 1
    ∧ (enrich_companies_batch c8world true 10 0 false 100
        (enrich_companies_batch c8world true 10 0 false 100 c8st0)).logCount = 2
    ∧ enrich_companies_batch c8world true 10 0 false 100
        (enrich_companies_batch c8world true 10 0 false 100 c8st0) ≠
      enrich_companies_batch c8world true 10 0 false 100 c8st0 := by
  rw [c8_run1, c8_run2]
  refine ⟨rfl, rfl, by decide⟩

/-- C8 (amended): with `force=false` a company already carrying the
`enriched_at` watermark is skipped before the budget check and any
billable call, returning company and state untouched; hence when every
company carries the watermark after the first invocation (every
enrichment succeeded and none was cut off by the budget), the second
invocation selects nothing and returns the state unchanged — identical
entity state, no new EnrichmentLog entries, no additional cost.
Companies left unwatermarked (failed enrichment or budget break) are
re-selected and retried. -/
theorem C8_theorem :
    (∀ (w : EnrichWorld) (hardStop : Bool) (budget now : ℚ) (st : PipeState)
        (c : Company), c.enriched_at.isSome = true →
      enrich_company w hardStop budget now false st c = .ok (c, st, true))
    ∧ (∀ (w : EnrichWorld) (hardStop : Bool) (budget now : ℚ) (limit : Nat)
        (st : PipeState), (∀ c ∈ st.companies, c.enriched_at.isSome = true) →
      enrich_companies_batch w hardStop budget now false limit st = st) := by
  constructor
  · intro w hardStop budget now st c hc
    unfold enrich_company
    rw [if_pos]
    rw [hc]
    rfl
  · intro w hardStop budget now limit st hall
    unfold enrich_companies_batch
    have hsel : st.companies.filter (fun c => c.enriched_at.isNone) = [] := by
      rw [List.filter_eq_nil_iff]
      intro c hc
      have := hall c hc
      simp [Option.isNone_iff_eq_none]
      intro hnone
      rw [hnone] at this
      simp at this
    simp only [Bool.false_eq_true, if_false, hsel, List.take_nil]
    rfl

/-- A fully watermarked state for the C8 witness. -/
def c8done : PipeState :=
  { companies := [{ id := 1, enriched_at := some 5, industry := some "SaaS" },
      { id := 2, enriched_at := some 6, industry := some "FinTech" }],
    logCount := 3, spend := 1 }

/-- C8 witness: re-invoking the stage on the watermarked state is a
no-op. -/
theorem C8_witness :
    (∀ c ∈ c8done.companies, c.enriched_at.isSome = true)
    ∧ enrich_companies_batch c8world true 10 0 false 100 c8done = c8done :=
  ⟨by decide, C8_theorem.2 c8world true 10 0 100 c8done (by decide)⟩

end Stage2
